import Mathlib

/-!
Verification development for the cc_companion controller core.

The definitions below are a shallow embedding of the TypeScript sources:

* `src/process-manager.ts` (ProcessManager: spawn / kill / killAll / onExit,
  the process table and the exit/error event handlers);
* `src/claude.ts` (waitForReady, Agent.wireEvents' one-shot approve/reject
  guard, Agent.wireBehavior's autoApprove handling);
* the message-protocol pieces whose implementation file (`src/inbox.ts`,
  `src/controller.ts`) is not part of the source snapshot are modelled from
  the specification and are marked `Modelled from the spec:` in their doc
  comments.

JavaScript `Map` objects are modelled as association lists whose lookup
returns the value of the (unique) matching key; JS object spread for
environment records is modelled as list append with a last-occurrence-wins
lookup, which is exactly the observable semantics of
`{ ...a, K: v, ...b }`.
-/

-- ─── Environment records (JS object spread semantics) ───────────────────────

/-- Last-occurrence-wins lookup in an environment record, the observable
semantics of a JS object built by spreads: a later entry for the same key
shadows an earlier one. -/
def envGet : List (String × String) → String → Option String
  | [], _ => none
  | (k', v) :: rest, k =>
    match envGet rest k with
    | some v' => some v'
    | none => if k' = k then some v else none

/-- The child environment built by `ProcessManager.spawn`
(process-manager.ts lines 131-136):
`{ ...process.env, CLAUDECODE: "1", CLAUDE_CODE_EXPERIMENTAL_AGENT_TEAMS: "1", ...opts.env }`.
The caller-supplied `opts.env` is spread last. -/
def spawnEnv (processEnv optsEnv : List (String × String)) : List (String × String) :=
  processEnv
    ++ [("CLAUDECODE", "1"), ("CLAUDE_CODE_EXPERIMENTAL_AGENT_TEAMS", "1")]
    ++ optsEnv

theorem envGet_append_of_some {b : List (String × String)} {k : String} {v : String}
    (h : envGet b k = some v) (a : List (String × String)) :
    envGet (a ++ b) k = some v := by
  induction a with
  | nil => simpa using h
  | cons hd tl ih =>
    simp only [List.cons_append, envGet]
    rw [show tl.append b = tl ++ b from rfl, ih]

theorem envGet_append_of_none {b : List (String × String)} {k : String}
    (h : envGet b k = none) (a : List (String × String)) :
    envGet (a ++ b) k = envGet a k := by
  induction a with
  | nil => simpa using h
  | cons hd tl ih =>
    simp only [List.cons_append, envGet]
    rw [show tl.append b = tl ++ b from rfl, ih]

-- ─── Process table (a JS Map keyed by agent name) ────────────────────────────

/-- Association-list lookup, the semantics of `Map.get`. -/
def pmLookup {α : Type} (l : List (String × α)) (k : String) : Option α :=
  (l.find? (fun p => p.1 = k)).map (fun p => p.2)

/-- `Map.set`: afterwards exactly one entry holds `k`, bound to `v`.
(JS `Map` insertion order is not modelled; no claim depends on iteration
order of the table.) -/
def pmSet {α : Type} (l : List (String × α)) (k : String) (v : α) : List (String × α) :=
  (k, v) :: l.filter (fun p => ¬ p.1 = k)

/-- `Map.delete`. -/
def pmDelete {α : Type} (l : List (String × α)) (k : String) : List (String × α) :=
  l.filter (fun p => ¬ p.1 = k)

theorem pmLookup_pmSet_self {α : Type} (l : List (String × α)) (k : String) (v : α) :
    pmLookup (pmSet l k v) k = some v := by
  simp [pmLookup, pmSet, List.find?]

theorem pmLookup_cons_of_ne {α : Type} (hd : String × α) (tl : List (String × α))
    (k : String) (h : ¬ hd.1 = k) : pmLookup (hd :: tl) k = pmLookup tl k := by
  unfold pmLookup
  rw [List.find?_cons_of_neg _ (by simpa using h)]

theorem pmLookup_cons_of_eq {α : Type} (hd : String × α) (tl : List (String × α))
    (k : String) (h : hd.1 = k) : pmLookup (hd :: tl) k = some hd.2 := by
  unfold pmLookup
  rw [List.find?_cons_of_pos _ (by simpa using h)]
  rfl

theorem pmLookup_pmDelete_self {α : Type} (l : List (String × α)) (k : String) :
    pmLookup (pmDelete l k) k = none := by
  induction l with
  | nil => rfl
  | cons hd tl ih =>
    by_cases hk : hd.1 = k
    · simpa [pmDelete, List.filter_cons, hk] using ih
    · have h1 : pmDelete (hd :: tl) k = hd :: pmDelete tl k := by
        simp [pmDelete, List.filter_cons, hk]
      rw [h1, pmLookup_cons_of_ne hd _ k hk, ih]

theorem pmLookup_pmDelete_other {α : Type} (l : List (String × α)) (k k' : String)
    (h : ¬ k' = k) : pmLookup (pmDelete l k) k' = pmLookup l k' := by
  induction l with
  | nil => rfl
  | cons hd tl ih =>
    by_cases hk : hd.1 = k
    · have hne : ¬ hd.1 = k' := fun hc => h (hc ▸ hk ▸ rfl)
      have h1 : pmDelete (hd :: tl) k = pmDelete tl k := by
        simp [pmDelete, List.filter_cons, hk]
      rw [h1, ih, pmLookup_cons_of_ne hd tl k' hne]
    · have h1 : pmDelete (hd :: tl) k = hd :: pmDelete tl k := by
        simp [pmDelete, List.filter_cons, hk]
      rw [h1]
      by_cases hk' : hd.1 = k'
      · rw [pmLookup_cons_of_eq hd _ k' hk', pmLookup_cons_of_eq hd tl k' hk']
      · rw [pmLookup_cons_of_ne hd _ k' hk', pmLookup_cons_of_ne hd tl k' hk', ih]

-- ─── ProcessManager.spawn (process-manager.ts) ───────────────────────────────

/-- `SpawnOptions` of process-manager.ts. -/
structure SpawnOpts where
  teamName : String
  agentName : String
  agentId : String
  agentType : Option String := none
  model : Option String := none
  cwd : Option String := none
  parentSessionId : Option String := none
  color : Option String := none
  claudeBinary : Option String := none
  permissions : List String := []
  permissionMode : Option String := none
  teammateMode : Option String := none
  env : List (String × String) := []

/-- Binary resolution at the top of `spawn` (process-manager.ts lines 40-47):
`opts.claudeBinary || "claude"`; an absolute path is kept as is, otherwise
the (trimmed) output of `which <binary>` replaces it when the lookup
succeeds. A failing `execSync` is swallowed by the surrounding `catch`, so a
missing binary falls through with the name unresolved — it does not raise.
`whichOutput` is the environment's answer to `which`; `none` models a
missing binary. -/
def resolveClaudeBinary (claudeBinary : Option String) (whichOutput : Option String) : String :=
  let b := claudeBinary.getD ("claude")
  if b.startsWith ("/") then b
  else
    match whichOutput with
    | some path => path
    | none => b

def optFlag (flag : String) : Option String → List String
  | some v => [flag, v]
  | none => []

/-- The identity-bearing claude argv built in `spawn`
(process-manager.ts lines 49-79). -/
def buildClaudeArgs (opts : SpawnOpts) : List String :=
  ["--teammate-mode", opts.teammateMode.getD ("auto"),
   "--agent-id", opts.agentId,
   "--agent-name", opts.agentName,
   "--team-name", opts.teamName]
  ++ optFlag ("--agent-type") opts.agentType
  ++ optFlag ("--agent-color") opts.color
  ++ optFlag ("--parent-session-id") opts.parentSessionId
  ++ optFlag ("--model") opts.model
  ++ optFlag ("--permission-mode") opts.permissionMode
  ++ opts.permissions.flatMap (fun perm => ["--allowedTools", perm])

/-- The spawned child as ProcessManager sees it: the claude command (argv,
binary first) handed to the `python3` PTY wrapper as JSON, plus the merged
child environment (process-manager.ts lines 85-137). -/
structure ChildHandle where
  childArgv : List String
  env : List (String × String)
deriving DecidableEq

/-- The ProcessManager's private process table
(`processes = new Map<string, ChildProcess>()`, process-manager.ts line 28). -/
structure PMState where
  processes : List (String × ChildHandle)
deriving DecidableEq

/-- `ProcessManager.spawn` (process-manager.ts lines 39-154). There is no
synchronous failure path: the `which` failure is caught inside `spawn`, and
`node:child_process.spawn` reports a missing executable through the
asynchronous `error` event rather than by throwing — so a handle is returned
and the table entry is set (line 139) unconditionally. -/
def pmSpawn (s : PMState) (processEnv : List (String × String))
    (opts : SpawnOpts) (whichOutput : Option String) : PMState × ChildHandle :=
  let binary := resolveClaudeBinary opts.claudeBinary whichOutput
  let h : ChildHandle :=
    { childArgv := binary :: buildClaudeArgs opts,
      env := spawnEnv processEnv opts.env }
  ({ processes := pmSet s.processes opts.agentName h }, h)

/-- The `exit` listener registered by `spawn` (process-manager.ts lines
141-146): drops the agent's entry from the table. -/
def handleExitEvent (s : PMState) (name : String) : PMState :=
  { processes := pmDelete s.processes name }

/-- The `error` listener registered by `spawn` (process-manager.ts lines
148-151): drops the agent's entry from the table. -/
def handleErrorEvent (s : PMState) (name : String) : PMState :=
  { processes := pmDelete s.processes name }

/-- `ProcessManager.isRunning`-style query: whether a name is tracked. -/
def pmTracked (s : PMState) (name : String) : Bool :=
  (pmLookup s.processes name).isSome

-- ─── ProcessManager.kill (process-manager.ts lines 189-213) ──────────────────

/-- The grace window `kill` races against process exit
(`setTimeout(..., 5_000)`, process-manager.ts line 208). -/
def killGraceMs : Nat := 5000

structure KillOutcome where
  state : PMState
  /-- signals delivered, in order, as (agentName, signal) pairs. -/
  signalsSent : List (String × String)
  /-- whether the SIGKILL escalation branch ran. -/
  forced : Bool
deriving DecidableEq

/-- `ProcessManager.kill(name, signal = "SIGTERM")`. An unknown name returns
immediately with no effect. Otherwise the signal is sent and the process's
exit is raced against the 5-second grace timer; real time is abstracted into
`exitsWithinGrace`, the outcome of that race. When the window elapses with
the name still tracked, `SIGKILL` is sent (the `proc.kill("SIGKILL")` throw
is swallowed by its own `catch`), and in every path the bookkeeping entry is
deleted before returning (line 212). The exit listener registered by `spawn`
deletes the same entry when the process exits inside the window, which makes
the final delete a no-op there. The function is total: no path throws. -/
def pmKill (s : PMState) (name : String) (sig : String)
    (exitsWithinGrace : Bool) : KillOutcome :=
  match pmLookup s.processes name with
  | none => { state := s, signalsSent := [], forced := false }
  | some _ =>
    if exitsWithinGrace then
      { state := { processes := pmDelete s.processes name },
        signalsSent := [(name, sig)], forced := false }
    else
      { state := { processes := pmDelete s.processes name },
        signalsSent := [(name, sig), (name, ("SIGKILL"))], forced := true }

/-- `ProcessManager.killAll` (process-manager.ts lines 218-221): kill every
tracked name with the default signal; `exits` gives each race's outcome. -/
def pmKillAll (s : PMState) (exits : String → Bool) : PMState :=
  (s.processes.map (fun p => p.1)).foldl
    (fun st n => (pmKill st n ("SIGTERM") (exits n)).state) s

-- ─── Table well-formedness (at most one entry per name) ──────────────────────

/-- The table invariant: keys are pairwise distinct (the JS `Map` guarantee
the embedding has to preserve). -/
def pmWF (s : PMState) : Prop := (s.processes.map (fun p => p.1)).Nodup

theorem nodupKeys_filter {α : Type} (l : List (String × α)) (p : (String × α) → Bool)
    (h : (l.map (fun q => q.1)).Nodup) : ((l.filter p).map (fun q => q.1)).Nodup :=
  List.Nodup.sublist (List.Sublist.map _ (List.filter_sublist l)) h

theorem pmWF_pmSet (s : PMState) (k : String) (v : ChildHandle) (h : pmWF s) :
    pmWF { processes := pmSet s.processes k v } := by
  unfold pmWF pmSet at *
  simp only [List.map_cons, List.nodup_cons]
  refine ⟨?_, nodupKeys_filter _ _ h⟩
  intro hmem
  obtain ⟨q, hq, hq1⟩ := List.mem_map.mp hmem
  have := (List.mem_filter.mp hq).2
  simp only [decide_eq_true_eq] at this
  exact this hq1

theorem pmWF_pmDelete (s : PMState) (k : String) (h : pmWF s) :
    pmWF { processes := pmDelete s.processes k } :=
  nodupKeys_filter _ _ h

-- ─── Exit callbacks (ProcessManager.onExit, process-manager.ts 156-162) ──────

/-- How a child process terminated. Node's `exit` event carries
`(code, signal)` where `code` is the exit status for a natural exit or crash
and `null` when the process was terminated by a signal. -/
inductive Termination where
  | exited (code : Int)
  | signaled (sig : String)
deriving DecidableEq

/-- The argument Node passes as `code` to an `exit` listener, and which
`onExit`'s wrapper forwards unchanged to the registered callback
(`proc.on("exit", (code) => callback(code))`): the exit code, or `null` when
the process was terminated by a signal. -/
def exitArg : Termination → Option Int
  | .exited code => some code
  | .signaled _ => none

/-- Events a child process delivers over its lifetime. A process that starts
and later terminates — by signal, explicit kill, natural exit, or crash —
emits exactly one `exit` event (the Node/OS guarantee the embedding takes as
given); `error`/`other` events may occur in any number. -/
inductive ProcEvent where
  | exit (t : Termination)
  | procError (msg : String)
  | other
deriving DecidableEq

def isExitEvent : ProcEvent → Bool
  | .exit _ => true
  | _ => false

/-- The invocations (by argument, in order) a callback registered through
`ProcessManager.onExit(name, callback)` receives over a trace: `onExit`
looks the name up in the table and, only when tracked, attaches the wrapper
to the process's `exit` event, so each `exit` event produces exactly one
invocation carrying that event's code argument. -/
def exitCallbackInvocations (s : PMState) (name : String)
    (trace : List ProcEvent) : List (Option Int) :=
  if pmTracked s name then
    trace.filterMap (fun e =>
      match e with
      | .exit t => some (exitArg t)
      | _ => none)
  else []

theorem filterMap_exit_silent {trace : List ProcEvent}
    (h : trace.countP isExitEvent = 0) :
    trace.filterMap (fun e =>
      match e with
      | ProcEvent.exit t => some (exitArg t)
      | _ => none) = [] := by
  induction trace with
  | nil => rfl
  | cons hd tl ih =>
    rw [List.countP_cons] at h
    cases hd with
    | exit t => simp [isExitEvent] at h
    | procError m =>
      simp only [isExitEvent, cond_false, add_zero] at h
      simpa [List.filterMap_cons] using ih h
    | other =>
      simp only [isExitEvent, cond_false, add_zero] at h
      simpa [List.filterMap_cons] using ih h

-- ─── waitForReady (claude.ts lines 193-256) ──────────────────────────────────

/-- Controller events relevant to `waitForReady`'s listeners, in arrival
order, plus the firing of its own timeout timer. -/
inductive CtrlEvent where
  | idle (name : String)
  | message (name : String)
  | spawned (name : String)
  | exited (name : String) (code : Option Int)
  | timerFired
deriving DecidableEq

/-- The state of one `waitForReady` promise. -/
inductive ReadyOutcome where
  | pending
  | ready
  | failed (code : Option Int)
  | timedOut
deriving DecidableEq

/-- One listener dispatch of `waitForReady`: every handler is guarded by the
shared `settled` flag, so a settled promise ignores all later events; while
pending, `idle`/`message` (onReady), `agent:spawned` (onSpawned) and
`agent:exited` (onExit) act only when the event's name matches, and the
timeout timer settles regardless of name. -/
def readyStep (agentName : String) (o : ReadyOutcome) (e : CtrlEvent) : ReadyOutcome :=
  match o with
  | .pending =>
    match e with
    | .idle n => if n = agentName then .ready else .pending
    | .message n => if n = agentName then .ready else .pending
    | .spawned n => if n = agentName then .ready else .pending
    | .exited n c => if n = agentName then .failed c else .pending
    | .timerFired => .timedOut
  | o => o

/-- `waitForReady(controller, agentName)`: the promise's final state after a
sequence of controller events. -/
def waitForReady (agentName : String) (events : List CtrlEvent) : ReadyOutcome :=
  events.foldl (readyStep agentName) .pending

/-- Whether an event settles a pending `waitForReady` for `agentName`. -/
def readySettles (agentName : String) : CtrlEvent → Bool
  | .idle n => n = agentName
  | .message n => n = agentName
  | .spawned n => n = agentName
  | .exited n _ => n = agentName
  | .timerFired => true

/-- The state an event settles a pending wait into. -/
def readyOutcomeOf : CtrlEvent → ReadyOutcome
  | .idle _ => .ready
  | .message _ => .ready
  | .spawned _ => .ready
  | .exited _ c => .failed c
  | .timerFired => .timedOut

theorem readyStep_settled (agentName : String) (o : ReadyOutcome) (e : CtrlEvent)
    (h : ¬ o = .pending) : readyStep agentName o e = o := by
  cases o with
  | pending => exact absurd rfl h
  | ready => rfl
  | failed c => rfl
  | timedOut => rfl

theorem foldl_readyStep_settled (agentName : String) (o : ReadyOutcome)
    (events : List CtrlEvent) (h : ¬ o = .pending) :
    events.foldl (readyStep agentName) o = o := by
  induction events with
  | nil => rfl
  | cons hd tl ih => rw [List.foldl_cons, readyStep_settled agentName o hd h, ih]

theorem readyStep_not_settling (agentName : String) (e : CtrlEvent)
    (h : readySettles agentName e = false) :
    readyStep agentName .pending e = .pending := by
  cases e <;> simp_all [readySettles, readyStep]

theorem readyStep_settling (agentName : String) (e : CtrlEvent)
    (h : readySettles agentName e = true) :
    readyStep agentName .pending e = readyOutcomeOf e := by
  cases e <;> simp_all [readySettles, readyStep, readyOutcomeOf]

-- ─── Agent.wireBehavior (claude.ts lines 557-585) ────────────────────────────

/-- The `autoApprove` option: `true`, `false`, or a tool-name allowlist. -/
inductive AutoApprove where
  | always
  | never
  | tools (allowed : List String)
deriving DecidableEq

/-- The automatic response `wireBehavior` issues for an incoming permission
request: with `autoApprove` absent (`null`/`undefined`) no handler is
registered; `true` approves; an array approves exactly the listed tool names
and rejects the rest; `false` registers a handler whose branches both fail,
so nothing is issued. `some true` = approve, `some false` = reject,
`none` = no automatic response. -/
def permissionDecision : Option AutoApprove → String → Option Bool
  | none, _ => none
  | some .always, _ => some true
  | some .never, _ => none
  | some (.tools allowed), toolName => some (allowed.contains toolName)

/-- The automatic response `wireBehavior` issues for an incoming plan
request: only `autoApprove === true` registers a plan handler (which
approves); an array or `false` registers none. -/
def planDecision : Option AutoApprove → Option Bool
  | some .always => some true
  | _ => none

-- ─── Message codec (parseMessage) ────────────────────────────────────────────

/-- A JSON value, the result of a successful `JSON.parse`. -/
inductive Json where
  | str (s : String)
  | num (n : Int)
  | bool (b : Bool)
  | null
  | arr (elems : List Json)
  | obj (fields : List (String × Json))

/-- Field access on a JSON object (first occurrence, as in JS). -/
def Json.getField : Json → String → Option Json
  | .obj fields, k => (fields.find? (fun p => p.1 = k)).map (fun p => p.2)
  | _, _ => none

/-- The closed set of structured-message discriminants
(types.ts, `StructuredMessage` minus the `plain_text` fallback). -/
def knownMessageTypes : List String :=
  ["task_assignment", "task_completed", "shutdown_request", "shutdown_approved",
   "idle_notification", "plan_approval_request", "plan_approval_response",
   "permission_request", "permission_response", "sandbox_permission_request",
   "sandbox_permission_response"]

/-- The decode result: the discriminant of the recognized variant (with its
parsed JSON payload), or the `plain_text` fallback carrying the envelope
text verbatim. -/
structure DecodedMessage where
  type : String
  text : String
  payload : Option Json

/-- Modelled from the spec: `parseMessage` of `src/inbox.ts`, whose
implementation file is not part of the source snapshot (only its type
declarations, re-export and conformance tests are). "Attempts to parse
`envelope.text` as JSON; if parsing fails, or the result lacks a string
`type` matching a known discriminant, returns
`{type: plain_text, text: envelope.text}`. Never fails outward; pure
function." `JSON.parse` is external library code and is abstracted into the
`parsed` argument: `none` models a parse failure on `text`. The function is
total, so decode never fails. -/
def parseMessage (parsed : Option Json) (text : String) : DecodedMessage :=
  match parsed with
  | none => { type := "plain_text", text := text, payload := none }
  | some j =>
    match j.getField ("type") with
    | some (Json.str t) =>
      if knownMessageTypes.contains t then
        { type := t, text := text, payload := some j }
      else
        { type := "plain_text", text := text, payload := none }
    | _ => { type := "plain_text", text := text, payload := none }

/-- The spec-side characterization of a recognizable envelope: its parsed
JSON has a string `type` field equal to a known discriminant. -/
def embeddedType (parsed : Option Json) : Option String :=
  parsed.bind (fun j =>
    match j.getField ("type") with
    | some (Json.str t) => if knownMessageTypes.contains t then some t else none
    | _ => none)

-- ─── PendingCorrelation (Requested → Resolved) ───────────────────────────────

/-- The two states of a pending correlation. -/
inductive CorrState where
  | requested
  | resolved
deriving DecidableEq

/-- Modelled from the spec: the controller's `PendingCorrelation` map keyed
by `requestId` (`src/controller.ts` is not part of the source snapshot). A
correlation enters `requested` when the request event dispatches, and
`resolve` is guarded by the resolved flag: the first resolution — whether
from the matching send-response call or from cancellation when the owning
agent's process exits — flips `requested` to `resolved` and performs the
side effect (the returned Bool); a resolution attempt for an id that is
already resolved (or unknown) returns the map unchanged, performs no effect,
and raises no error (the function is total). -/
def resolveCorrelation (store : List (String × CorrState)) (id : String) :
    List (String × CorrState) × Bool :=
  match pmLookup store id with
  | some .requested => (pmSet store id .resolved, true)
  | _ => (store, false)

/-- A sequence of resolution attempts for one id (each attempt is a
send-response call or an exit cancellation); returns the final store and the
number of side effects performed. -/
def resolveAttempts (store : List (String × CorrState)) (id : String) :
    Nat → List (String × CorrState) × Nat
  | 0 => (store, 0)
  | n + 1 =>
    let r := resolveCorrelation store id
    let rest := resolveAttempts r.1 id n
    (rest.1, (if r.2 then 1 else 0) + rest.2)

/-- The per-request one-shot guard `Agent.wireEvents` builds around
`approve`/`reject` (claude.ts lines 486-525): a shared `handled` flag; once
set, either call returns `Promise.resolve()` without invoking the underlying
send. -/
structure RequestGuard where
  handled : Bool
deriving DecidableEq

/-- One guarded call: the Bool reports whether the underlying send ran. -/
def guardRun (g : RequestGuard) : RequestGuard × Bool :=
  if g.handled then (g, false) else ({ handled := true }, true)

-- ─── broadcast ───────────────────────────────────────────────────────────────

/-- One mailbox envelope as written by broadcast: `from`, `text`,
`summary` (types.ts `InboxMessage`; the timestamp and read flag play no role
in the claim and are omitted). -/
structure BroadcastEntry where
  sender : String
  text : String
  summary : Option String
deriving DecidableEq

/-- Modelled from the spec: `broadcast(text, summary?)` of
`src/controller.ts`, whose implementation file is not part of the source
snapshot (only its conformance tests are). It walks the registered members,
skips the synthetic controller, and writes one `{from: "controller", text,
summary}` entry per remaining member; a failing write (the `failWrites`
set abstracts storage errors) is collected into the error report and must
not abort the writes to the remaining members. Returns the performed writes
(recipient, entry) in order, and the failed recipients. -/
def broadcastWrites (members : List String) (failWrites : List String)
    (text : String) (summary : Option String) :
    List (String × BroadcastEntry) × List String :=
  match members with
  | [] => ([], [])
  | name :: rest =>
    let r := broadcastWrites rest failWrites text summary
    if name = "controller" then r
    else if failWrites.contains name then (r.1, name :: r.2)
    else ((name, { sender := "controller", text := text, summary := summary }) :: r.1, r.2)

-- ─── Helper lemmas ───────────────────────────────────────────────────────────

theorem resolveAttempts_resolved (store : List (String × CorrState)) (id : String)
    (h : pmLookup store id = some CorrState.resolved) :
    ∀ n, resolveAttempts store id n = (store, 0) := by
  intro n
  induction n with
  | zero => rfl
  | succ n ih => simp [resolveAttempts, resolveCorrelation, h, ih]

theorem foldl_readyStep_pending (agentName : String) (pre : List CtrlEvent)
    (hpre : ∀ x ∈ pre, readySettles agentName x = false) :
    pre.foldl (readyStep agentName) .pending = .pending := by
  induction pre with
  | nil => rfl
  | cons hd tl ih =>
    rw [List.foldl_cons, readyStep_not_settling agentName hd (hpre hd (List.mem_cons_self hd tl))]
    exact ih (fun x hx => hpre x (List.mem_cons_of_mem hd hx))

theorem readyOutcomeOf_ne_pending (e : CtrlEvent) :
    ¬ readyOutcomeOf e = ReadyOutcome.pending := by
  cases e <;> simp [readyOutcomeOf]

-- ─── Claim theorems ──────────────────────────────────────────────────────────

/-- Claim C1: a pending correlation (permission or plan-approval) keyed by a
requestId transitions from Requested to Resolved at most once. The first
resolution — whether by the matching send-response call or by cancellation
on the owning agent's exit, both of which go through `resolveCorrelation` —
performs the side effect and flips the state; a second resolution attempt
for the already-resolved id returns the store unchanged, performs no effect
and raises no error; across any number of attempts exactly one side effect
runs; and the one-shot `handled` guard that `Agent.wireEvents` builds around
`approve`/`reject` likewise runs the underlying send on the first call only,
the second call being a pure no-op. -/
theorem correlation_resolved_at_most_once
    (store : List (String × CorrState)) (id : String)
    (h : pmLookup store id = some CorrState.requested) :
    (resolveCorrelation store id).2 = true ∧
    pmLookup (resolveCorrelation store id).1 id = some CorrState.resolved ∧
    resolveCorrelation (resolveCorrelation store id).1 id =
      ((resolveCorrelation store id).1, false) ∧
    (∀ n, (resolveAttempts store id (n + 1)).2 = 1) ∧
    (guardRun { handled := false }).2 = true ∧
    (guardRun (guardRun { handled := false }).1).2 = false := by
  have hr : resolveCorrelation store id = (pmSet store id CorrState.resolved, true) := by
    simp [resolveCorrelation, h]
  have hres : pmLookup (pmSet store id CorrState.resolved) id = some CorrState.resolved :=
    pmLookup_pmSet_self _ _ _
  refine ⟨by rw [hr], by rw [hr]; exact hres, ?_, ?_, rfl, rfl⟩
  · rw [hr]
    simp [resolveCorrelation, hres]
  · intro n
    simp [resolveAttempts, hr, resolveAttempts_resolved _ _ hres n]

/-- Witness for C1 at a concrete one-entry store. -/
theorem correlation_resolved_at_most_once_witness :
    (resolveCorrelation [("req-1", CorrState.requested)] ("req-1")).2 = true ∧
    resolveCorrelation
        (resolveCorrelation [("req-1", CorrState.requested)] ("req-1")).1 ("req-1") =
      ((resolveCorrelation [("req-1", CorrState.requested)] ("req-1")).1, false) := by
  have h := correlation_resolved_at_most_once
    [("req-1", CorrState.requested)] ("req-1") rfl
  exact ⟨h.1, h.2.2.1⟩

/-- Claim C2: for a process tracked by the ProcessManager with a callback
registered through `onExit`, a lifetime trace containing exactly one `exit`
event (the Node guarantee for any termination — signal, explicit kill,
natural exit, or crash) produces exactly one callback invocation, whose
argument is the process's exit code, or null when it was terminated by a
signal — never zero invocations and never more than one. -/
theorem exit_callback_fires_exactly_once
    (s : PMState) (name : String) (pre post : List ProcEvent) (t : Termination)
    (htracked : pmTracked s name = true)
    (hpre : pre.countP isExitEvent = 0)
    (hpost : post.countP isExitEvent = 0) :
    exitCallbackInvocations s name (pre ++ ProcEvent.exit t :: post) = [exitArg t] ∧
    (∀ sig, t = Termination.signaled sig → exitArg t = none) ∧
    (∀ c, t = Termination.exited c → exitArg t = some c) := by
  refine ⟨?_, ?_, ?_⟩
  · unfold exitCallbackInvocations
    rw [if_pos htracked, List.filterMap_append, filterMap_exit_silent hpre,
      List.filterMap_cons, filterMap_exit_silent hpost]
    rfl
  · intro sig hsig
    rw [hsig]
    rfl
  · intro c hc
    rw [hc]
    rfl

/-- Witness for C2: a tracked process whose trace holds one signal exit. -/
theorem exit_callback_fires_exactly_once_witness :
    exitCallbackInvocations ⟨[("w", { childArgv := [], env := [] })]⟩ ("w")
        ([ProcEvent.other] ++ ProcEvent.exit (Termination.signaled ("SIGTERM"))
          :: [ProcEvent.procError ("boom")]) = [none] := by
  have h := exit_callback_fires_exactly_once
    ⟨[("w", { childArgv := [], env := [] })]⟩ ("w")
    [ProcEvent.other] [ProcEvent.procError ("boom")]
    (Termination.signaled ("SIGTERM")) rfl rfl rfl
  exact h.1

/-- Claim C3: decode never fails — `parseMessage` is total. When the
envelope text does not parse as JSON (`parsed = none`), or parses to a value
without a string `type` field among the known discriminants
(`embeddedType parsed = none`), the result is the `plain_text` fallback
whose `text` is character-for-character the envelope text; otherwise the
result's `type` is exactly the embedded discriminant (and the text is still
carried verbatim). -/
theorem parseMessage_fallback_and_dispatch (parsed : Option Json) (text : String) :
    (embeddedType parsed = none →
      parseMessage parsed text =
        { type := "plain_text", text := text, payload := none }) ∧
    (∀ t, embeddedType parsed = some t →
      (parseMessage parsed text).type = t ∧ (parseMessage parsed text).text = text) := by
  cases parsed with
  | none =>
    refine ⟨fun _ => rfl, fun t ht => ?_⟩
    simp [embeddedType] at ht
  | some j =>
    cases hg : j.getField ("type") with
    | none =>
      refine ⟨fun _ => ?_, fun t ht => ?_⟩
      · simp [parseMessage, hg]
      · simp [embeddedType, hg] at ht
    | some v =>
      cases v with
      | str sv =>
        by_cases hk : sv ∈ knownMessageTypes
        · refine ⟨fun hnone => ?_, fun t ht => ?_⟩
          · exfalso
            simp [embeddedType, hg, hk] at hnone
          · simp only [embeddedType, Option.bind_eq_bind, Option.some_bind, hg] at ht
            simp [hk] at ht
            subst ht
            refine ⟨?_, ?_⟩ <;> simp [parseMessage, hg, hk]
        · refine ⟨fun _ => ?_, fun t ht => ?_⟩
          · simp [parseMessage, hg, hk]
          · exfalso
            simp [embeddedType, hg, hk] at ht
      | num n =>
        refine ⟨fun _ => by simp [parseMessage, hg], fun t ht => ?_⟩
        simp [embeddedType, hg] at ht
      | bool b =>
        refine ⟨fun _ => by simp [parseMessage, hg], fun t ht => ?_⟩
        simp [embeddedType, hg] at ht
      | null =>
        refine ⟨fun _ => by simp [parseMessage, hg], fun t ht => ?_⟩
        simp [embeddedType, hg] at ht
      | arr elems =>
        refine ⟨fun _ => by simp [parseMessage, hg], fun t ht => ?_⟩
        simp [embeddedType, hg] at ht
      | obj fields =>
        refine ⟨fun _ => by simp [parseMessage, hg], fun t ht => ?_⟩
        simp [embeddedType, hg] at ht

/-- Witness for C3: JSON without a recognized type falls back to plain_text
verbatim, and a recognized discriminant is dispatched. -/
theorem parseMessage_fallback_and_dispatch_witness :
    parseMessage (some (Json.obj [("foo", Json.str ("bar"))])) ("raw body") =
      { type := "plain_text", text := "raw body", payload := none } ∧
    (parseMessage (some (Json.obj [("type", Json.str ("idle_notification"))]))
        ("{...}")).type = "idle_notification" := by
  constructor
  · exact (parseMessage_fallback_and_dispatch _ _).1 rfl
  · exact ((parseMessage_fallback_and_dispatch
      (some (Json.obj [("type", Json.str ("idle_notification"))])) ("{...}")).2
      ("idle_notification") rfl).1

/-- Claim C4: `kill(name, signal)` never throws. An untracked name returns
with no state change and no signal sent; a tracked name receives the
requested signal, the 5-second grace race (abstracted into its outcome
`exitsWithinGrace`) escalates to SIGKILL exactly when the process is still
tracked at expiry, and in every case the bookkeeping entry is removed from
the table before returning. -/
theorem kill_never_throws_and_clears
    (s : PMState) (name sig : String) (exitsWithinGrace : Bool) :
    (pmLookup s.processes name = none →
      pmKill s name sig exitsWithinGrace =
        { state := s, signalsSent := [], forced := false }) ∧
    (¬ pmLookup s.processes name = none →
      pmLookup (pmKill s name sig exitsWithinGrace).state.processes name = none ∧
      (pmKill s name sig exitsWithinGrace).signalsSent =
        (name, sig) :: (if exitsWithinGrace then [] else [(name, ("SIGKILL"))]) ∧
      (pmKill s name sig exitsWithinGrace).forced = !exitsWithinGrace) := by
  constructor
  · intro h
    simp [pmKill, h]
  · intro h
    cases hl : pmLookup s.processes name with
    | none => exact absurd hl h
    | some v =>
      cases exitsWithinGrace <;>
        simp [pmKill, hl, pmLookup_pmDelete_self]

/-- Witness for C4: both the unknown-name branch and a tracked kill without
exit inside the grace window. -/
theorem kill_never_throws_and_clears_witness :
    pmKill ⟨[]⟩ ("ghost") ("SIGTERM") true =
      { state := ⟨[]⟩, signalsSent := [], forced := false } ∧
    pmLookup
        (pmKill ⟨[("w", { childArgv := [], env := [] })]⟩ ("w") ("SIGTERM")
          false).state.processes ("w") = none := by
  constructor
  · exact (kill_never_throws_and_clears ⟨[]⟩ ("ghost") ("SIGTERM") true).1 rfl
  · exact ((kill_never_throws_and_clears ⟨[("w", { childArgv := [], env := [] })]⟩
      ("w") ("SIGTERM") false).2 (by simp [pmLookup, List.find?])).1

/-- Options of a spawn whose target binary is missing: `which claude` fails
(modelled by `whichOutput = none`). -/
def missingBinaryOpts : SpawnOpts :=
  { teamName := "t", agentName := "w1", agentId := "w1@t" }

/-- Counterexample to claim C5: a spawn call whose target binary is missing
does not error — `spawn` still returns a handle and a tracked entry for the
agent name IS created in the process table. (The `which` failure is caught
inside `spawn`, and `node:child_process.spawn` reports exec failure through
the asynchronous `error` event, so nothing surfaces synchronously.) -/
theorem spawn_missing_binary_cex :
    pmLookup (pmSpawn ⟨[]⟩ [] missingBinaryOpts none).1.processes ("w1") =
      some (pmSpawn ⟨[]⟩ [] missingBinaryOpts none).2 ∧
    (pmSpawn ⟨[]⟩ [] missingBinaryOpts none).1.processes.length = 1 := by
  exact ⟨rfl, rfl⟩

/-- Claim C5 as amended: `ProcessManager.spawn` has no synchronous failure
path — for every input (including a missing binary) it returns a handle and
unconditionally records a tracked entry for the agent name; the failure is
delivered asynchronously through the process's `error`/`exit` events, whose
handlers remove that entry from the table. -/
theorem spawn_failure_reported_asynchronously
    (s : PMState) (processEnv : List (String × String)) (opts : SpawnOpts)
    (whichOutput : Option String) :
    pmLookup (pmSpawn s processEnv opts whichOutput).1.processes opts.agentName =
      some (pmSpawn s processEnv opts whichOutput).2 ∧
    pmLookup (handleErrorEvent (pmSpawn s processEnv opts whichOutput).1
        opts.agentName).processes opts.agentName = none ∧
    pmLookup (handleExitEvent (pmSpawn s processEnv opts whichOutput).1
        opts.agentName).processes opts.agentName = none := by
  refine ⟨pmLookup_pmSet_self _ _ _, ?_, ?_⟩ <;>
    exact pmLookup_pmDelete_self _ _

/-- Claim C6: a caller awaiting readiness of an agent is granted readiness
at the first of three events for that agent's name — `idle`, `message`, or
the `agent:spawned` fallback — whichever fires first; and when
`agent:exited` for that name fires before any readiness signal, the wait
fails with an error instead of succeeding or staying pending. Events that do
not settle the wait (other agents' events) leave it untouched, and events
after settlement are ignored. -/
theorem waitForReady_first_signal_decides
    (agentName : String) (pre post : List CtrlEvent) (e : CtrlEvent)
    (hpre : ∀ x ∈ pre, readySettles agentName x = false)
    (he : readySettles agentName e = true) :
    waitForReady agentName (pre ++ e :: post) = readyOutcomeOf e ∧
    ((e = CtrlEvent.idle agentName ∨ e = CtrlEvent.message agentName ∨
        e = CtrlEvent.spawned agentName) →
      waitForReady agentName (pre ++ e :: post) = ReadyOutcome.ready) ∧
    (∀ c, e = CtrlEvent.exited agentName c →
      waitForReady agentName (pre ++ e :: post) = ReadyOutcome.failed c) := by
  have hmain : waitForReady agentName (pre ++ e :: post) = readyOutcomeOf e := by
    unfold waitForReady
    rw [List.foldl_append, foldl_readyStep_pending agentName pre hpre,
      List.foldl_cons, readyStep_settling agentName e he,
      foldl_readyStep_settled agentName _ post (readyOutcomeOf_ne_pending e)]
  refine ⟨hmain, ?_, ?_⟩
  · intro hcase
    rw [hmain]
    rcases hcase with h1 | h1 | h1 <;> rw [h1] <;> rfl
  · intro c hc
    rw [hmain, hc]
    rfl

/-- Witness for C6: the spawned fallback fires first (after an unrelated
agent's idle), then the agent's exit is ignored; and an exit arriving first
fails the wait. -/
theorem waitForReady_first_signal_decides_witness :
    waitForReady ("w") [CtrlEvent.idle ("other"), CtrlEvent.spawned ("w"),
      CtrlEvent.exited ("w") (some 1)] = ReadyOutcome.ready ∧
    waitForReady ("w") [CtrlEvent.exited ("w") (some 1), CtrlEvent.idle ("w")] =
      ReadyOutcome.failed (some 1) := by
  constructor
  · exact (waitForReady_first_signal_decides ("w") [CtrlEvent.idle ("other")]
      [CtrlEvent.exited ("w") (some 1)] (CtrlEvent.spawned ("w"))
      (by intro x hx; simp at hx; subst hx; rfl) rfl).2.1
      (Or.inr (Or.inr rfl))
  · exact (waitForReady_first_signal_decides ("w") [] [CtrlEvent.idle ("w")]
      (CtrlEvent.exited ("w") (some 1))
      (by intro x hx; simp at hx) rfl).2.2 (some 1) rfl

/-- The registered members excluding the synthetic controller. -/
def nonControllerMembers (members : List String) : List String :=
  members.filter (fun n => if n = "controller" then false else true)

theorem broadcastWrites_names (members failWrites : List String)
    (text : String) (summary : Option String) :
    (broadcastWrites members failWrites text summary).1.map (fun w => w.1) =
      members.filter (fun n =>
        if n = "controller" then false else !(failWrites.contains n)) := by
  induction members with
  | nil => rfl
  | cons name rest ih =>
    by_cases h1 : name = "controller"
    · simp [broadcastWrites, List.filter_cons, h1, ih]
    · by_cases h2 : name ∈ failWrites
      · simp [broadcastWrites, List.filter_cons, h1, h2, ih]
      · simp [broadcastWrites, List.filter_cons, h1, h2, ih]

theorem broadcastWrites_entries (members failWrites : List String)
    (text : String) (summary : Option String) :
    ∀ w ∈ (broadcastWrites members failWrites text summary).1,
      w.2 = { sender := "controller", text := text, summary := summary } := by
  induction members with
  | nil => intro w hw; simp [broadcastWrites] at hw
  | cons name rest ih =>
    intro w hw
    by_cases h1 : name = "controller"
    · exact ih w (by simpa [broadcastWrites, h1] using hw)
    · by_cases h2 : name ∈ failWrites
      · exact ih w (by simpa [broadcastWrites, h1, h2] using hw)
      · have h2' : ¬ failWrites.contains name = true := by simpa using h2
        simp only [broadcastWrites, if_neg h1, if_neg h2', List.mem_cons] at hw
        rcases hw with hw | hw
        · rw [hw]
        · exact ih w hw

theorem broadcastWrites_errors (members failWrites : List String)
    (text : String) (summary : Option String) :
    (broadcastWrites members failWrites text summary).2 =
      members.filter (fun n =>
        if n = "controller" then false else failWrites.contains n) := by
  induction members with
  | nil => rfl
  | cons name rest ih =>
    by_cases h1 : name = "controller"
    · simp [broadcastWrites, List.filter_cons, h1, ih]
    · by_cases h2 : name ∈ failWrites
      · simp [broadcastWrites, List.filter_cons, h1, h2, ih]
      · simp [broadcastWrites, List.filter_cons, h1, h2, ih]

/-- Claim C7: broadcast over the registered members writes exactly one
mailbox entry `{from: "controller", text, summary}` per non-controller
member, the synthetic controller's own mailbox receives zero entries, and a
failed write to one member (collected into the error report) does not
prevent the writes to the remaining members — the successful recipients are
exactly the non-controller members outside the failing set, regardless of
where the failures sit in the member list. -/
theorem broadcast_one_write_per_member
    (members failWrites : List String) (text : String) (summary : Option String) :
    ((broadcastWrites members failWrites text summary).1.map (fun w => w.1) =
      members.filter (fun n =>
        if n = "controller" then false else !(failWrites.contains n))) ∧
    (∀ w ∈ (broadcastWrites members failWrites text summary).1,
      w.2 = { sender := "controller", text := text, summary := summary }) ∧
    "controller" ∉ (broadcastWrites members failWrites text summary).1.map (fun w => w.1) ∧
    ((broadcastWrites members failWrites text summary).2 =
      members.filter (fun n =>
        if n = "controller" then false else failWrites.contains n)) ∧
    (failWrites = [] →
      (broadcastWrites members failWrites text summary).1.length =
        (nonControllerMembers members).length) := by
  have hnames := broadcastWrites_names members failWrites text summary
  refine ⟨hnames, broadcastWrites_entries members failWrites text summary, ?_,
    broadcastWrites_errors members failWrites text summary, ?_⟩
  · intro hmem
    rw [hnames] at hmem
    have := (List.mem_filter.mp hmem).2
    simp at this
  · intro hfail
    subst hfail
    rw [← List.length_map (broadcastWrites members [] text summary).1 (fun w => w.1),
      hnames]
    unfold nonControllerMembers
    congr 1

/-- Witness for C7: three members including the controller, one failing
write; the failure does not stop the later write. -/
theorem broadcast_one_write_per_member_witness :
    ((broadcastWrites ["controller", "a", "b"] ["a"] ("hello") (some "s")).1.map
      (fun w => w.1) = ["b"]) ∧
    ((broadcastWrites ["controller", "a", "b"] [] ("hello") (some "s")).1.length =
      (nonControllerMembers ["controller", "a", "b"]).length) := by
  constructor
  · exact (broadcast_one_write_per_member ["controller", "a", "b"] ["a"]
      ("hello") (some "s")).1.trans (by decide)
  · exact (broadcast_one_write_per_member ["controller", "a", "b"] []
      ("hello") (some "s")).2.2.2.2 rfl

/-- Counterexample to claim C8: a caller-supplied environment override DOES
override the identity-bearing protocol marker, because `opts.env` is spread
last: with `opts.env = {CLAUDECODE: "0"}` the child environment carries
`CLAUDECODE="0"`, not `"1"`. -/
theorem spawnEnv_identity_override_cex :
    envGet (spawnEnv [] [("CLAUDECODE", "0")]) ("CLAUDECODE") = some ("0") ∧
    ¬ envGet (spawnEnv [] [("CLAUDECODE", "0")]) ("CLAUDECODE") = some ("1") := by
  exact ⟨rfl, by decide⟩

/-- Claim C8 as amended: the child environment contains
`CLAUDECODE="1"` and `CLAUDE_CODE_EXPERIMENTAL_AGENT_TEAMS="1"` whenever the
caller does not explicitly override those keys, and caller-supplied entries
win over every default — the inherited process environment AND the protocol
markers alike, since `opts.env` is spread last. -/
theorem spawnEnv_markers_unless_overridden
    (processEnv optsEnv : List (String × String)) :
    (envGet optsEnv ("CLAUDECODE") = none →
      envGet (spawnEnv processEnv optsEnv) ("CLAUDECODE") = some ("1")) ∧
    (envGet optsEnv ("CLAUDE_CODE_EXPERIMENTAL_AGENT_TEAMS") = none →
      envGet (spawnEnv processEnv optsEnv) ("CLAUDE_CODE_EXPERIMENTAL_AGENT_TEAMS") =
        some ("1")) ∧
    (∀ k v, envGet optsEnv k = some v →
      envGet (spawnEnv processEnv optsEnv) k = some v) := by
  unfold spawnEnv
  refine ⟨?_, ?_, ?_⟩
  · intro h
    rw [envGet_append_of_none h]
    exact envGet_append_of_some (by decide) processEnv
  · intro h
    rw [envGet_append_of_none h]
    exact envGet_append_of_some (by decide) processEnv
  · intro k v h
    exact envGet_append_of_some h _

/-- Witness for C8 as amended: default markers present, caller key kept. -/
theorem spawnEnv_markers_unless_overridden_witness :
    envGet (spawnEnv [("PATH", "/bin")] [("FOO", "bar")]) ("CLAUDECODE") = some ("1") ∧
    envGet (spawnEnv [("PATH", "/bin")] [("FOO", "bar")]) ("FOO") = some ("bar") := by
  have h := spawnEnv_markers_unless_overridden [("PATH", "/bin")] [("FOO", "bar")]
  exact ⟨h.1 (by decide), h.2.2 ("FOO") ("bar") (by decide)⟩

theorem nodupKeys_count {α : Type} (l : List (String × α))
    (h : (l.map (fun q => q.1)).Nodup) (name : String) :
    (l.filter (fun p => p.1 = name)).length ≤ 1 := by
  induction l with
  | nil => simp
  | cons hd tl ih =>
    rw [List.map_cons, List.nodup_cons] at h
    by_cases hk : hd.1 = name
    · have hni : tl.filter (fun p => p.1 = name) = [] := by
        rw [List.filter_eq_nil_iff]
        intro a ha
        simp only [decide_eq_true_eq]
        intro ha1
        exact h.1 (List.mem_map.mpr ⟨a, ha, ha1.trans hk.symm⟩)
      simp [List.filter_cons, hk, hni]
    · simp only [List.filter_cons, hk, decide_eq_true_eq, if_neg hk]
      exact ih h.2

theorem pmWF_pmKill (s : PMState) (name sig : String) (eg : Bool) (h : pmWF s) :
    pmWF (pmKill s name sig eg).state := by
  have hdel := pmWF_pmDelete s name h
  cases hl : pmLookup s.processes name with
  | none => simpa [pmKill, hl] using h
  | some v => cases eg <;> simpa [pmKill, hl] using hdel

theorem pmWF_killFold (names : List String) (exits : String → Bool) :
    ∀ s : PMState, pmWF s →
      pmWF (names.foldl (fun st n => (pmKill st n ("SIGTERM") (exits n)).state) s) := by
  induction names with
  | nil => intro s h; exact h
  | cons hd tl ih =>
    intro s h
    exact ih _ (pmWF_pmKill s hd ("SIGTERM") (exits hd) h)

/-- Claim C9: in every reachable state of the ProcessManager each agent name
has at most one tracked entry — the table's keys are pairwise distinct, so
no name ever holds two live entries — and the invariant is preserved by
every operation: spawn (whose `Map.set` replaces any entry of the same
name), kill, killAll, and the exit/error event handlers. -/
theorem process_table_at_most_one_entry (s : PMState) (h : pmWF s) :
    (∀ name, (s.processes.filter (fun p => p.1 = name)).length ≤ 1) ∧
    (∀ processEnv opts whichOutput, pmWF (pmSpawn s processEnv opts whichOutput).1) ∧
    (∀ name sig eg, pmWF (pmKill s name sig eg).state) ∧
    (∀ name, pmWF (handleExitEvent s name)) ∧
    (∀ name, pmWF (handleErrorEvent s name)) ∧
    (∀ exits, pmWF (pmKillAll s exits)) :=
  ⟨fun name => nodupKeys_count _ h name,
    fun _ opts _ => pmWF_pmSet s opts.agentName _ h,
    fun name sig eg => pmWF_pmKill s name sig eg h,
    fun name => pmWF_pmDelete s name h,
    fun name => pmWF_pmDelete s name h,
    fun exits => pmWF_killFold _ exits s h⟩

/-- Witness for C9 at a concrete two-entry table. -/
theorem process_table_at_most_one_entry_witness :
    ((⟨[("a", { childArgv := [], env := [] }),
        ("b", { childArgv := [], env := [] })]⟩ : PMState).processes.filter
      (fun p => p.1 = "a")).length ≤ 1 ∧
    pmWF (handleExitEvent
      ⟨[("a", { childArgv := [], env := [] }),
        ("b", { childArgv := [], env := [] })]⟩ ("a")) := by
  have h := process_table_at_most_one_entry
    ⟨[("a", { childArgv := [], env := [] }),
      ("b", { childArgv := [], env := [] })]⟩ (by unfold pmWF; decide)
  exact ⟨h.1 ("a"), h.2.2.2.1 ("a")⟩

/-- Claim C10: with `autoApprove === true` every incoming permission request
and every incoming plan request is automatically approved; with
`autoApprove` an array of tool names, a permission request is approved
exactly when its toolName is in the array and rejected otherwise, while
plan requests receive no automatic response in either direction. -/
theorem autoApprove_decisions (toolName : String) (allowed : List String) :
    permissionDecision (some AutoApprove.always) toolName = some true ∧
    planDecision (some AutoApprove.always) = some true ∧
    (allowed.contains toolName = true →
      permissionDecision (some (AutoApprove.tools allowed)) toolName = some true) ∧
    (allowed.contains toolName = false →
      permissionDecision (some (AutoApprove.tools allowed)) toolName = some false) ∧
    planDecision (some (AutoApprove.tools allowed)) = none := by
  refine ⟨rfl, rfl, ?_, ?_, rfl⟩
  · intro h
    have hm : toolName ∈ allowed := by simpa using h
    simp [permissionDecision, hm]
  · intro h
    have hm : toolName ∉ allowed := by simpa using h
    simp [permissionDecision, hm]

/-- Witness for C10: an allowlisted tool is approved, another rejected. -/
theorem autoApprove_decisions_witness :
    permissionDecision (some (AutoApprove.tools ["Read", "Glob"])) ("Read") = some true ∧
    permissionDecision (some (AutoApprove.tools ["Read", "Glob"])) ("Bash") = some false ∧
    planDecision (some (AutoApprove.tools ["Read", "Glob"])) = none := by
  have h1 := autoApprove_decisions ("Read") ["Read", "Glob"]
  have h2 := autoApprove_decisions ("Bash") ["Read", "Glob"]
  exact ⟨h1.2.2.1 (by decide), h2.2.2.2.1 (by decide), h1.2.2.2.2⟩
